import Mathlib

/-!  Verification of the ana-skills skill-synchronization core.

Shallow embedding of `src/ana_skills/{resources,sync,config,models}.py` and
`src/ana_skills/commands/{sync_cmd,upload_cmd}.py`.  Python strings are
modelled as `List Char`; the filesystem is modelled as an association list
from path strings to file contents.  Python string primitives
(`startswith`, `split(sep, 2)`, `strip`, `lower`, `splitlines`,
`partition`, `lstrip("\n")`) are reproduced with their CPython semantics.
-/

/-- Models Python `str.startswith(p)` (equivalently, list-prefix test). -/
def startswith : List Char → List Char → Bool
  | [], _ => true
  | _ :: _, [] => false
  | a :: as, b :: bs => a == b && startswith as bs

/-- Finds the first occurrence of (non-empty) `sep`; returns the part before
it and the part after it, as Python `str.partition` / one step of
`str.split` does.  Returns `none` when `sep` does not occur. -/
def splitFirst (sep : List Char) : List Char → Option (List Char × List Char)
  | [] => none
  | c :: cs =>
    if startswith sep (c :: cs) then some ([], (c :: cs).drop sep.length)
    else
      match splitFirst sep cs with
      | none => none
      | some (p, r) => some (c :: p, r)

/-- Models Python `s.split(sep, 2)` for a non-empty separator: at most two
splits, scanning left to right over non-overlapping occurrences. -/
def split2 (sep s : List Char) : List (List Char) :=
  match splitFirst sep s with
  | none => [s]
  | some (a, r) =>
    match splitFirst sep r with
    | none => [a, r]
    | some (b, r2) => [a, b, r2]

/-- The `---` frontmatter delimiter. -/
def d3 : List Char := ['-', '-', '-']

/-- Characters stripped by Python `str.strip()` (the CPython Unicode
whitespace set). -/
def pySpaceChars : List Char :=
  [' ', '\t', '\n', '\x0b', '\x0c', '\r', '\x1c', '\x1d', '\x1e', '\x1f',
   '\x85', '\xa0', '\u1680', '\u2000', '\u2001', '\u2002', '\u2003',
   '\u2004', '\u2005', '\u2006', '\u2007', '\u2008', '\u2009', '\u200a',
   '\u2028', '\u2029', '\u202f', '\u205f', '\u3000']

/-- Whitespace test used by Python `str.strip()`. -/
def isPySpace (c : Char) : Bool := pySpaceChars.contains c

/-- Line boundary characters recognized by Python `str.splitlines()`. -/
def lineBreakChars : List Char :=
  ['\n', '\r', '\x0b', '\x0c', '\x1c', '\x1d', '\x1e', '\x85', '\u2028',
   '\u2029']

/-- Line-boundary test used by Python `str.splitlines()`. -/
def isLineBreakChar (c : Char) : Bool := lineBreakChars.contains c

/-- Models Python `str.strip()`: remove leading and trailing whitespace. -/
def pyStrip (s : List Char) : List Char :=
  ((s.dropWhile isPySpace).reverse.dropWhile isPySpace).reverse

/-- Models Python `str.lower()` (ASCII range; the only values compared by
the code are `"y"`/`"n"` prompt answers). -/
def pyLower (s : List Char) : List Char := s.map Char.toLower

/-- Models Python `str.splitlines()`: split on line boundaries, `\r\n`
counting as a single boundary, with no trailing empty line. -/
def pySplitlines : List Char → List (List Char)
  | [] => []
  | '\r' :: '\n' :: rest => [] :: pySplitlines rest
  | c :: rest =>
    if isLineBreakChar c then [] :: pySplitlines rest
    else
      match pySplitlines rest with
      | [] => [[c]]
      | l :: ls => (c :: l) :: ls

/-- Python-dict insertion over an association list: replace in place when
the key is present (keeping its position), append otherwise. -/
def insertA {β : Type} (k : List Char) (v : β) :
    List (List Char × β) → List (List Char × β)
  | [] => [(k, v)]
  | e :: es => if e.1 = k then (k, v) :: es else e :: insertA k v es

/-- Python-dict lookup over an association list (first match). -/
def lookupA {β : Type} (k : List Char) : List (List Char × β) → Option β
  | [] => none
  | e :: es => if e.1 = k then some e.2 else lookupA k es

/-- Builds the metadata dict from the text between the two `---`
delimiters, as the loop body of `parse_skill_frontmatter`
(src/ana_skills/resources.py lines 80-85) does: strip the block, split it
into lines, and for every line containing a colon record
`key.strip() ↦ value.strip()` where the line is partitioned at its first
colon. -/
def buildMeta (block : List Char) : List (List Char × List Char) :=
  (pySplitlines (pyStrip block)).foldl
    (fun md line =>
      match splitFirst ([':']) line with
      | some (k, v) => insertA (pyStrip k) (pyStrip v) md
      | none => md)
    []

/-- Models `parse_skill_frontmatter` (src/ana_skills/resources.py lines
69-87): input not starting with `---` is returned unchanged with empty
metadata; otherwise the input is split on `---` at most twice, and with
fewer than three parts the whole input is again returned unchanged;
otherwise the middle part yields the metadata and the third part, with
leading newlines removed, the body. -/
def parse_skill_frontmatter (content : List Char) :
    List (List Char × List Char) × List Char :=
  if startswith d3 content = false then ([], content)
  else
    match split2 d3 content with
    | [_, p1, p2] => (buildMeta p1, p2.dropWhile (fun c => c == '\n'))
    | _ => ([], content)

/-- The supported agent environments (src/ana_skills/models.py). -/
inductive AgentFramework where
  | claude
  | cursor
  | copilot
deriving DecidableEq

/-- The raw string value of each `AgentFramework` enum member. -/
def frameworkValue : AgentFramework → List Char
  | AgentFramework.claude => "claude".toList
  | AgentFramework.cursor => "cursor".toList
  | AgentFramework.copilot => "copilot".toList

/-- Models the `AGENT_SKILL_PATHS` table (src/ana_skills/models.py lines
19-23). -/
def AGENT_SKILL_PATHS : AgentFramework → List Char
  | AgentFramework.claude => ".claude/skills".toList
  | AgentFramework.cursor => ".cursor/rules".toList
  | AgentFramework.copilot => ".github/skills".toList

/-- Models `_wrap_frontmatter` (src/ana_skills/sync.py lines 20-32). -/
def wrap_frontmatter (framework : AgentFramework)
    (name description body : List Char) : List Char :=
  if framework = AgentFramework.cursor then
    "---\nname: ".toList ++ name ++ "\ndescription: ".toList ++ description
      ++ "\nglobs: []\nalwaysApply: false\n---\n\n".toList ++ body
      ++ "\n".toList
  else
    "---\nname: ".toList ++ name ++ "\ndescription: ".toList ++ description
      ++ "\n---\n\n".toList ++ body ++ "\n".toList

/-- A filesystem snapshot: an association list from path strings (relative
to the project or repository root, `/`-separated) to file contents. -/
abbrev FS := List (List Char × List Char)

/-- The path separator. -/
def slash : List Char := ['/']

/-- Removes every file whose path lies under the given prefix; the
embedding of `shutil.rmtree` on a directory in the path-map model. -/
def fsRemoveUnder (pre : List Char) (fs : FS) : FS :=
  fs.filter (fun e => !startswith pre e.1)

/-- Models `_copy_subdir` (src/ana_skills/sync.py lines 35-43): when the
source subdirectory is absent or empty do nothing; otherwise delete the
destination subdirectory (`shutil.rmtree` when it exists) and copy the
source tree in full (`shutil.copytree`).  The source subdirectory is the
canonical skill's entry list (file name, possibly nested, to content);
`destDir` is the destination subdirectory path. -/
def copy_subdir (src : Option FS) (destDir : List Char) (fs : FS) : FS :=
  match src with
  | none => fs
  | some entries =>
    if entries.isEmpty then fs
    else
      entries.foldl
        (fun acc e => insertA (destDir ++ slash ++ e.1) e.2 acc)
        (fsRemoveUnder (destDir ++ slash) fs)

/-- A canonical skill directory: the optional `SKILL.md` file and the
optional `references/` and `scripts/` subdirectories (each a list of
(file name, content) entries; `none` = the subdirectory does not exist,
`some []` = it exists but is empty). -/
structure SkillDir where
  skillMd : Option (List Char)
  references : Option FS
  scripts : Option FS
deriving DecidableEq

/-- The canonical skill repository: families (in the sorted order that
`list_families` returns them) each holding its skills (in the sorted order
that directory listing returns them). -/
abbrev Repo := List (List Char × List (List Char × SkillDir))

/-- Models `list_families` (src/ana_skills/resources.py lines 16-24). -/
def list_families (r : Repo) : List (List Char) := r.map (·.1)

/-- Models `list_skills_in_family` (src/ana_skills/resources.py lines
27-36): subdirectories of the family that contain a `SKILL.md` file;
absent family gives the empty list. -/
def list_skills_in_family (r : Repo) (fam : List Char) : List (List Char) :=
  match lookupA fam r with
  | none => []
  | some sks => (sks.filter (fun s => s.2.skillMd.isSome)).map (·.1)

/-- Models `list_all_skills` (src/ana_skills/resources.py lines 39-46):
families with a non-empty skill list, each with its skills. -/
def list_all_skills (r : Repo) : List (List Char × List (List Char)) :=
  (list_families r).filterMap
    (fun fam =>
      let sks := list_skills_in_family r fam
      if sks.isEmpty then none else some (fam, sks))

/-- Models `get_all_skill_names` (src/ana_skills/resources.py lines 54-59):
the union of all families' skill names.  The Python set is represented by
the list of its members. -/
def get_all_skill_names (r : Repo) : List (List Char) :=
  (list_families r).foldl (fun acc fam => acc ++ list_skills_in_family r fam) []

/-- Models `find_skill_family` (src/ana_skills/resources.py lines 62-66):
the first family (in listing order) containing the skill. -/
def find_skill_family (r : Repo) (name : List Char) : Option (List Char) :=
  (list_families r).find? (fun fam => (list_skills_in_family r fam).contains name)

/-- Models `get_skill_dir` (src/ana_skills/resources.py lines 49-51),
resolved against the repository snapshot. -/
def get_skill_dir (r : Repo) (fam name : List Char) : Option SkillDir :=
  (lookupA fam r).bind (fun sks => lookupA name sks)

/-- Models `sync_skill` (src/ana_skills/sync.py lines 46-94).  An unknown
skill, or one whose directory or `SKILL.md` is missing, is skipped and the
project filesystem returned unchanged.  Otherwise the frontmatter is
parsed, the body re-wrapped, and the result written to the
framework-specific layout: directory per skill with `SKILL.md` plus the
`references/` and `scripts/` subdirectories for claude and copilot, one
flat `<name>.md` file for cursor. -/
def sync_skill (r : Repo) (skill_name : List Char) (framework : AgentFramework)
    (fs : FS) : FS :=
  match find_skill_family r skill_name with
  | none => fs
  | some family =>
    match get_skill_dir r family skill_name with
    | none => fs
    | some sd =>
      match sd.skillMd with
      | none => fs
      | some raw =>
        let pm := parse_skill_frontmatter raw
        let name := (lookupA ("name".toList) pm.1).getD skill_name
        let description := (lookupA ("description".toList) pm.1).getD []
        let skill_base := AGENT_SKILL_PATHS framework
        match framework with
        | AgentFramework.cursor =>
          insertA (skill_base ++ slash ++ name ++ ".md".toList)
            (wrap_frontmatter framework name description pm.2) fs
        | _ =>
          let dest := skill_base ++ slash ++ name
          let fs1 := insertA (dest ++ "/SKILL.md".toList)
            (wrap_frontmatter framework name description pm.2) fs
          let fs2 := copy_subdir sd.references (dest ++ "/references".toList) fs1
          copy_subdir sd.scripts (dest ++ "/scripts".toList) fs2

/-- Models `sync_skills` (src/ana_skills/sync.py lines 97-107): sync each
name in order, counting every attempt; returns the count and the final
project filesystem. -/
def sync_skills (r : Repo) (skill_names : List (List Char))
    (framework : AgentFramework) (fs : FS) : Nat × FS :=
  skill_names.foldl
    (fun acc n => (acc.1 + 1, sync_skill r n framework acc.2)) (0, fs)

/-- The persisted per-project configuration record
(src/ana_skills/config.py): the raw `agent` field (a string, or absent)
and the `skills` name-to-enabled map. -/
structure Config where
  agent : Option (List Char)
  skills : List (List Char × Bool)
deriving DecidableEq

/-- Models the Python `AgentFramework(value)` enum constructor: match by
value, `none` for the `ValueError` case. -/
def frameworkOfValue (s : List Char) : Option AgentFramework :=
  if s = "claude".toList then some AgentFramework.claude
  else if s = "cursor".toList then some AgentFramework.cursor
  else if s = "copilot".toList then some AgentFramework.copilot
  else none

/-- Models `get_agent` (src/ana_skills/config.py lines 39-47): a missing or
falsy (empty) `agent` field gives `none`; otherwise the enum constructor is
tried and its `ValueError` surfaces as `none`. -/
def get_agent (cfg : Config) : Option AgentFramework :=
  match cfg.agent with
  | none => none
  | some a => if a.isEmpty then none else frameworkOfValue a

/-- Models `get_enabled_skills` (src/ana_skills/config.py lines 50-53). -/
def get_enabled_skills (cfg : Config) : List (List Char) :=
  (cfg.skills.filter (·.2)).map (·.1)

/-- The set (as a list of members) of upstream skills missing from the
configuration: `available - configured` in `_check_new_skills`
(src/ana_skills/commands/sync_cmd.py lines 81-83). -/
def new_skills (r : Repo) (cfg : Config) : List (List Char) :=
  (get_all_skill_names r).filter (fun n => !(cfg.skills.map (·.1)).contains n)

/-- Models `_check_new_skills` (src/ana_skills/commands/sync_cmd.py lines
79-112).  The interactive prompts are injected: `review` is the answer to
the review question and `answers` gives the per-skill answer.  Returns
`none` when there is nothing new or the user declines, else the updates
map built family by family over the new skills. -/
def check_new_skills (r : Repo) (cfg : Config) (review : List Char)
    (answers : List Char → List Char) : Option (List (List Char × Bool)) :=
  let news := new_skills r cfg
  if news.isEmpty then none
  else if pyLower (pyStrip review) = "y".toList then
    some ((list_all_skills r).foldl
      (fun upd fam =>
        (fam.2.filter (fun s => news.contains s)).foldl
          (fun u skill =>
            insertA skill (pyLower (pyStrip (answers skill)) == "y".toList) u)
          upd)
      [])
  else none

/-- Models the new-skill section of `download_command`
(src/ana_skills/commands/sync_cmd.py lines 162-171): a truthy updates dict
is merged into the `skills` section and saved; `None` or an empty dict
leaves the configuration untouched and performs no save.  The boolean
records whether `save_config` ran. -/
def download_update_config (cfg : Config)
    (upd : Option (List (List Char × Bool))) : Config × Bool :=
  match upd with
  | none => (cfg, false)
  | some u =>
    if u.isEmpty then (cfg, false)
    else ({ cfg with skills := u.foldl (fun sk e => insertA e.1 e.2 sk) cfg.skills },
          true)

/-- Models the cursor branch of `_upload_skill`
(src/ana_skills/commands/upload_cmd.py lines 52-61): the flat
`<skill-name>.md` file is read and its raw content written verbatim to the
canonical `skills/<family>/<skill-name>/SKILL.md`; a missing source file
skips.  Canonical paths are relative to `SKILLS_DIR`. -/
def upload_skill_cursor (skill_name family : List Char)
    (projFs canonFs : FS) : FS :=
  let skill_base := AGENT_SKILL_PATHS AgentFramework.cursor
  match lookupA (skill_base ++ slash ++ skill_name ++ ".md".toList) projFs with
  | none => canonFs
  | some content =>
    insertA (family ++ slash ++ skill_name ++ "/SKILL.md".toList) content canonFs

/-- Absence of the `---` delimiter anywhere in `s`: no tail of `s` begins
with it. -/
def noTriple (s : List Char) : Prop :=
  ∀ t q : List Char, s = t ++ q → startswith d3 q = false

/-- Content of a path inside a freshly copied subdirectory: the last
source entry (in copying order, later duplicates overwriting) whose
destination path matches. -/
def subLookup (entries : FS) (dir p : List Char) : Option (List Char) :=
  (entries.reverse.find? (fun e => dir ++ slash ++ e.1 == p)).map (·.2)

/-- Whether an optional subdirectory exists and is non-empty — the guard
of `_copy_subdir`. -/
def subdirNonempty : Option FS → Bool
  | none => false
  | some es => !es.isEmpty

/-- Canonical `SKILL.md` bytes of the Scenario A/B fixture skill: the
frontmatter carries `name: deploy-checklist` and `description: Checklist`
and the text parses to the body `Steps...`. -/
def c2Raw : List Char :=
  "---\nname: deploy-checklist\ndescription: Checklist\n---\n\nSteps...".toList

/-- Scenario A/B fixture repository: family `infra` with the single skill
`deploy-checklist`. -/
def c2Repo : Repo :=
  [( "infra".toList, [( "deploy-checklist".toList, ⟨some c2Raw, none, none⟩)])]

/-- Scenario C fixture repository: one family holding skills `a`, `b`,
`c`, each with a `SKILL.md`. -/
def c8Repo : Repo :=
  [( "fam".toList,
     [( "a".toList, ⟨some ( "x".toList), none, none⟩),
      ( "b".toList, ⟨some ( "x".toList), none, none⟩),
      ( "c".toList, ⟨some ( "x".toList), none, none⟩)])]

/-- Scenario C fixture configuration: `skills: {a: true, b: false}`. -/
def c8Cfg : Config :=
  { agent := some ( "claude".toList),
    skills := [( "a".toList, true), ( "b".toList, false)] }

/-! ### String toolkit lemmas -/

theorem startswith_self_append (s t : List Char) : startswith s (s ++ t) = true := by
induction s with
| nil => rfl
| cons a as ih => simp [startswith, ih]

theorem startswith_cancel (x a b : List Char) :
    startswith (x ++ a) (x ++ b) = startswith a b := by
induction x with
| nil => rfl
| cons c cs ih => simp [startswith, ih]

theorem splitFirst_self_append (sep t : List Char) (h : sep ≠ []) :
    splitFirst sep (sep ++ t) = some ([], t) := by
match sep, h with
| s0 :: s', _ =>
  rw [List.cons_append]
  simp only [splitFirst]
  rw [← List.cons_append, startswith_self_append]
  simp [List.drop_left]

theorem splitFirst_cons_none (sep : List Char) (c : Char) (cs : List Char)
    (h : splitFirst sep (c :: cs) = none) : splitFirst sep cs = none := by
simp only [splitFirst] at h
split at h
· exact absurd h (by simp)
· rcases he : splitFirst sep cs with _ | ⟨p, r⟩
  · rfl
  · rw [he] at h
    simp at h

theorem splitFirst_cons_not_start (sep : List Char) (c : Char) (cs : List Char)
    (h : splitFirst sep (c :: cs) = none) : startswith sep (c :: cs) = false := by
simp only [splitFirst] at h
split at h
· exact absurd h (by simp)
· rename_i hc
  simpa using hc

theorem splitFirst_none_noTriple (s : List Char) (h : splitFirst d3 s = none) :
    noTriple s := by
induction s with
| nil =>
  intro t q hq
  have hq' : q = [] := by
    cases t with
    | nil => exact hq.symm
    | cons a t' => exact absurd hq (by simp)
  subst hq'
  rfl
| cons c cs ih =>
  intro t q hq
  cases t with
  | nil =>
    simp only [List.nil_append] at hq
    subst hq
    exact splitFirst_cons_not_start _ _ _ h
  | cons a t' =>
    rw [List.cons_append] at hq
    injection hq with h1 h2
    exact ih (splitFirst_cons_none _ _ _ h) t' q h2

theorem startswith_d3_cases (q z : List Char) (hq : q ≠ [])
    (h : startswith d3 (q ++ z) = true) :
    startswith d3 q = true ∨ (q.getLast? = some '-' ∧ z.head? = some '-') := by
match q, hq with
| [a], _ =>
  right
  simp only [d3, List.cons_append, List.nil_append, startswith,
    Bool.and_eq_true, beq_iff_eq] at h
  obtain ⟨ha, hz⟩ := h
  cases z with
  | nil => simp [startswith] at hz
  | cons z0 z' =>
    simp only [startswith, Bool.and_eq_true, beq_iff_eq] at hz
    exact ⟨by simp [← ha], by simp [← hz.1]⟩
| [a, b], _ =>
  right
  simp only [d3, List.cons_append, List.nil_append, startswith,
    Bool.and_eq_true, beq_iff_eq] at h
  obtain ⟨ha, hb, hz⟩ := h
  cases z with
  | nil => simp [startswith] at hz
  | cons z0 z' =>
    simp only [startswith, Bool.and_eq_true, beq_iff_eq] at hz
    exact ⟨by simp [← hb], by simp [← hz.1]⟩
| a :: b :: c :: r, _ =>
  left
  simp only [d3, List.cons_append, startswith, Bool.and_eq_true,
    beq_iff_eq] at h
  obtain ⟨ha, hb, hc, -⟩ := h
  subst ha
  subst hb
  subst hc
  simp [d3, startswith]

theorem noTriple_append (x y : List Char) (hx : noTriple x) (hy : noTriple y)
    (hj : x.getLast? = some '-' → y.head? = some '-' → False) :
    noTriple (x ++ y) := by
intro t q hq
rcases List.append_eq_append_iff.mp hq with ⟨m, hm1, hm2⟩ | ⟨m, hm1, hm2⟩
· exact hy m q hm2
· cases m with
  | nil =>
    have hqy : q = y := by simpa using hm2
    exact hy [] q (by simp [hqy])
  | cons mc m' =>
    by_contra hsw
    have hsw' : startswith d3 q = true := by
      cases hb : startswith d3 q
      · exact absurd hb hsw
      · rfl
    rw [hm2] at hsw'
    rcases startswith_d3_cases (mc :: m') y (by simp) hsw' with hocc | ⟨hl, hh⟩
    · rw [hx t (mc :: m') hm1] at hocc
      cases hocc
    · apply hj _ hh
      rw [hm1, List.getLast?_append_of_ne_nil _ (by simp)]
      exact hl

theorem splitFirst_d3_append (x z : List Char) (hx : noTriple x)
    (hlast : x.getLast? ≠ some '-') :
    splitFirst d3 (x ++ d3 ++ z) = some (x, z) := by
induction x with
| nil =>
  rw [List.nil_append]
  exact splitFirst_self_append d3 z (by decide)
| cons a x' ih =>
  have hx' : noTriple x' := by
    intro t q hq
    exact hx (a :: t) q (by rw [hq, List.cons_append])
  have hlast' : x'.getLast? ≠ some '-' := by
    cases x' with
    | nil => simp
    | cons b x'' =>
      intro hc
      exact hlast (by rw [List.getLast?_cons_cons]; exact hc)
  have hsw : startswith d3 ((a :: x') ++ (d3 ++ z)) = false := by
    cases hb : startswith d3 ((a :: x') ++ (d3 ++ z))
    · rfl
    · rcases startswith_d3_cases (a :: x') (d3 ++ z) (by simp) hb with hocc | ⟨hl, _⟩
      · rw [hx [] (a :: x') rfl] at hocc
        cases hocc
      · exact absurd hl hlast
  rw [List.append_assoc, List.cons_append]
  simp only [splitFirst]
  rw [← List.cons_append, hsw]
  simp only [Bool.false_eq_true, if_false]
  rw [← List.append_assoc, ih hx' hlast']

/-! ### splitlines and strip lemmas -/

theorem pySplitlines_cons_nl (l : List Char) :
    pySplitlines ('\n' :: l) = [] :: pySplitlines l := rfl

theorem pySplitlines_cons_other (a : Char) (l : List Char)
    (ha : isLineBreakChar a = false) :
    pySplitlines (a :: l) =
      match pySplitlines l with
      | [] => [[a]]
      | m :: ms => (a :: m) :: ms := by
have ha' : a ≠ '\r' := by
  intro h
  subst h
  exact absurd ha (by decide)
rw [pySplitlines.eq_def]
split
· rename_i heq
  exact absurd heq (by simp)
· rename_i heq
  rw [List.cons.injEq] at heq
  exact absurd heq.1 ha'
· rename_i c rest _ _ heq
  rw [List.cons.injEq] at heq
  obtain ⟨h1, h2⟩ := heq
  subst h1
  subst h2
  rw [ha]
  simp

theorem pySplitlines_singleton (x : List Char)
    (hx : ∀ c ∈ x, isLineBreakChar c = false) (hne : x ≠ []) :
    pySplitlines x = [x] := by
induction x with
| nil => exact absurd rfl hne
| cons a x' ih =>
  rw [pySplitlines_cons_other a x' (hx a (by simp))]
  cases x' with
  | nil => rfl
  | cons b x'' =>
    rw [ih (fun c hc => hx c (by simp [hc])) (by simp)]

theorem pySplitlines_append_line (x y : List Char)
    (hx : ∀ c ∈ x, isLineBreakChar c = false) :
    pySplitlines (x ++ '\n' :: y) = x :: pySplitlines y := by
induction x with
| nil => simpa using pySplitlines_cons_nl y
| cons a x' ih =>
  rw [List.cons_append, pySplitlines_cons_other a _ (hx a (by simp))]
  rw [ih (fun c hc => hx c (by simp [hc]))]

theorem dropWhile_head_false (p : Char → Bool) (l : List Char)
    (h : l.dropWhile p = l) (c : Char) (t : List Char) (hl : l = c :: t) :
    p c = false := by
subst hl
cases hc : p c with
| false => rfl
| true =>
  rw [List.dropWhile_cons, hc, if_pos rfl] at h
  have hlen : (List.dropWhile p t).length ≤ t.length :=
    (List.dropWhile_sublist p).length_le
  rw [h] at hlen
  simp at hlen

theorem dropWhile_eq_self_of_head (p : Char → Bool) (l : List Char)
    (h : ∀ c, l.head? = some c → p c = false) : l.dropWhile p = l := by
cases l with
| nil => rfl
| cons a t =>
  rw [List.dropWhile_cons, h a rfl]
  simp

theorem head?_some_cons (l : List Char) (c : Char) (h : l.head? = some c) :
    ∃ t, l = c :: t := by
cases l with
| nil => simp at h
| cons a t =>
  simp at h
  exact ⟨t, by rw [h]⟩

theorem pyStrip_space_value (V : List Char)
    (h3 : V.dropWhile isPySpace = V)
    (h4 : V.reverse.dropWhile isPySpace = V.reverse) :
    pyStrip (' ' :: V) = V := by
unfold pyStrip
rw [List.dropWhile_cons]
rw [show isPySpace ' ' = true from by decide]
simp only [if_true]
rw [h3, h4, List.reverse_reverse]

theorem pyStrip_preBlock (N D : List Char)
    (hD4 : D.reverse.dropWhile isPySpace = D.reverse) (hD5 : D ≠ []) :
    pyStrip (("\nname: ".toList ++ (N ++ ('\n' :: ("description: ".toList ++ D)))) ++ ['\n'])
      = "name: ".toList ++ (N ++ ('\n' :: ("description: ".toList ++ D))) := by
have hXlast : ("name: ".toList ++ (N ++ ('\n' :: ("description: ".toList ++ D)))).getLast?
    = D.getLast? := by
  rw [List.getLast?_append_of_ne_nil _ (by simp [List.append_eq_nil])]
  rw [List.getLast?_append_of_ne_nil _ (by simp)]
  rw [show ('\n' :: ("description: ".toList ++ D)) = ['\n'] ++ ("description: ".toList ++ D)
    from rfl]
  rw [List.getLast?_append_of_ne_nil _ (by simp [List.append_eq_nil])]
  rw [List.getLast?_append_of_ne_nil _ hD5]
have hhead : ∀ c,
    ("name: ".toList ++ (N ++ ('\n' :: ("description: ".toList ++ D)))).reverse.head? = some c →
    isPySpace c = false := by
  intro c hc
  rw [List.head?_reverse, hXlast, ← List.head?_reverse] at hc
  obtain ⟨t, ht⟩ := head?_some_cons _ _ hc
  exact dropWhile_head_false isPySpace D.reverse hD4 c t ht
have hinner : List.dropWhile isPySpace
    (("name: ".toList ++ (N ++ ('\n' :: ("description: ".toList ++ D)))) ++ ['\n'])
    = ("name: ".toList ++ (N ++ ('\n' :: ("description: ".toList ++ D)))) ++ ['\n'] := by
  apply dropWhile_eq_self_of_head
  intro c hc
  rw [List.head?_append_of_ne_nil _ (by simp)] at hc
  rw [show ("name: ".toList ++ (N ++ ('\n' :: ("description: ".toList ++ D)))).head?
    = some 'n' from rfl] at hc
  injection hc with hc'
  rw [← hc']
  decide
have hrev : (("name: ".toList ++ (N ++ ('\n' :: ("description: ".toList ++ D)))) ++ ['\n']).reverse
    = '\n' :: ("name: ".toList ++ (N ++ ('\n' :: ("description: ".toList ++ D)))).reverse := by
  rw [List.reverse_append]
  rfl
unfold pyStrip
rw [show (("\nname: ".toList ++ (N ++ ('\n' :: ("description: ".toList ++ D)))) ++ ['\n'])
  = '\n' :: (("name: ".toList ++ (N ++ ('\n' :: ("description: ".toList ++ D)))) ++ ['\n'])
  from rfl]
rw [List.dropWhile_cons]
rw [show isPySpace '\n' = true from by decide]
simp only [if_true]
rw [hinner, hrev, List.dropWhile_cons]
rw [show isPySpace '\n' = true from by decide]
simp only [if_true]
rw [dropWhile_eq_self_of_head isPySpace _ hhead, List.reverse_reverse]

theorem pyStrip_preBlock_emptyD (N : List Char) :
    pyStrip (("\nname: ".toList ++ (N ++ ('\n' :: "description: ".toList))) ++ ['\n'])
      = "name: ".toList ++ (N ++ ('\n' :: "description:".toList)) := by
have hXZ : ("name: ".toList ++ (N ++ ('\n' :: "description: ".toList)))
    = ("name: ".toList ++ (N ++ ('\n' :: "description:".toList))) ++ [' '] := by
  simp only [List.append_assoc, List.cons_append]
  rfl
have hZlast : ("name: ".toList ++ (N ++ ('\n' :: "description:".toList))).getLast?
    = some ':' := by
  rw [List.getLast?_append_of_ne_nil _ (by simp [List.append_eq_nil])]
  rw [List.getLast?_append_of_ne_nil _ (by simp)]
  rw [show ('\n' :: ("description:".toList)) = ['\n'] ++ "description:".toList from rfl]
  rw [List.getLast?_append_of_ne_nil _ (by decide)]
  decide
have hhead : ∀ c,
    ("name: ".toList ++ (N ++ ('\n' :: "description:".toList))).reverse.head? = some c →
    isPySpace c = false := by
  intro c hc
  rw [List.head?_reverse, hZlast] at hc
  injection hc with hc'
  rw [← hc']
  decide
have hinner : List.dropWhile isPySpace
    (("name: ".toList ++ (N ++ ('\n' :: "description: ".toList))) ++ ['\n'])
    = ("name: ".toList ++ (N ++ ('\n' :: "description: ".toList))) ++ ['\n'] := by
  apply dropWhile_eq_self_of_head
  intro c hc
  rw [List.head?_append_of_ne_nil _ (by simp)] at hc
  rw [show ("name: ".toList ++ (N ++ ('\n' :: "description: ".toList))).head?
    = some 'n' from rfl] at hc
  injection hc with hc'
  rw [← hc']
  decide
have hrev : (("name: ".toList ++ (N ++ ('\n' :: "description: ".toList))) ++ ['\n']).reverse
    = '\n' :: ("name: ".toList ++ (N ++ ('\n' :: "description: ".toList))).reverse := by
  rw [List.reverse_append]
  rfl
unfold pyStrip
rw [show (("\nname: ".toList ++ (N ++ ('\n' :: "description: ".toList))) ++ ['\n'])
  = '\n' :: (("name: ".toList ++ (N ++ ('\n' :: "description: ".toList))) ++ ['\n'])
  from rfl]
rw [List.dropWhile_cons]
rw [show isPySpace '\n' = true from by decide]
simp only [if_true]
rw [hinner, hrev, List.dropWhile_cons]
rw [show isPySpace '\n' = true from by decide]
simp only [if_true]
rw [hXZ, List.reverse_append]
rw [show ((([' '] : List Char)).reverse
    ++ ("name: ".toList ++ (N ++ ('\n' :: "description:".toList))).reverse)
  = ' ' :: ("name: ".toList ++ (N ++ ('\n' :: "description:".toList))).reverse from rfl]
rw [List.dropWhile_cons]
rw [show isPySpace ' ' = true from by decide]
simp only [if_true]
rw [dropWhile_eq_self_of_head isPySpace _ hhead, List.reverse_reverse]

theorem parse_wrap_noncursor (fw : AgentFramework) (N D B : List Char)
    (hfw : fw ≠ AgentFramework.cursor)
    (hN1 : ∀ c ∈ N, isLineBreakChar c = false)
    (hN3 : N.dropWhile isPySpace = N)
    (hN4 : N.reverse.dropWhile isPySpace = N.reverse)
    (hN6 : splitFirst d3 N = none)
    (hD1 : ∀ c ∈ D, isLineBreakChar c = false)
    (hD3 : D.dropWhile isPySpace = D)
    (hD4 : D.reverse.dropWhile isPySpace = D.reverse)
    (hD6 : splitFirst d3 D = none)
    (hB1 : B ≠ []) (hB2 : B.head? ≠ some '\n') :
    parse_skill_frontmatter (wrap_frontmatter fw N D B)
      = ([( "name".toList, N), ( "description".toList, D)], B ++ ['\n']) := by
have wrapeq : wrap_frontmatter fw N D B
    = d3 ++ ((("\nname: ".toList ++ (N ++ ('\n' :: ("description: ".toList ++ D)))) ++ ['\n'])
        ++ (d3 ++ ('\n' :: ('\n' :: (B ++ ['\n']))))) := by
  simp only [wrap_frontmatter, if_neg hfw, d3, List.append_assoc, List.cons_append,
    List.singleton_append, List.nil_append]
  rfl
have nD : noTriple D := splitFirst_none_noTriple D hD6
have nN : noTriple N := splitFirst_none_noTriple N hN6
have nA : noTriple ('\n' :: ("description: ".toList ++ D)) := by
  rw [show ('\n' :: ("description: ".toList ++ D))
    = "\ndescription: ".toList ++ D from rfl]
  exact noTriple_append _ D (splitFirst_none_noTriple _ (by decide)) nD
    (fun h1 _ => absurd h1 (by decide))
have nB2 : noTriple (N ++ ('\n' :: ("description: ".toList ++ D))) := by
  refine noTriple_append N _ nN nA (fun _ h2 => ?_)
  rw [show ('\n' :: ("description: ".toList ++ D)).head? = some '\n' from rfl] at h2
  exact absurd h2 (by decide)
have nC : noTriple ("\nname: ".toList ++ (N ++ ('\n' :: ("description: ".toList ++ D)))) :=
  noTriple_append _ _ (splitFirst_none_noTriple _ (by decide)) nB2
    (fun h1 _ => absurd h1 (by decide))
have nPre : noTriple
    (("\nname: ".toList ++ (N ++ ('\n' :: ("description: ".toList ++ D)))) ++ ['\n']) := by
  refine noTriple_append _ _ nC (splitFirst_none_noTriple _ (by decide)) (fun _ h2 => ?_)
  exact absurd h2 (by decide)
have preLast :
    ((("\nname: ".toList ++ (N ++ ('\n' :: ("description: ".toList ++ D)))) ++ ['\n'])).getLast?
      ≠ some '-' := by
  rw [List.getLast?_concat]
  decide
have s2 : splitFirst d3
    ((("\nname: ".toList ++ (N ++ ('\n' :: ("description: ".toList ++ D)))) ++ ['\n'])
      ++ (d3 ++ ('\n' :: ('\n' :: (B ++ ['\n'])))))
    = some ((("\nname: ".toList ++ (N ++ ('\n' :: ("description: ".toList ++ D)))) ++ ['\n']),
        '\n' :: ('\n' :: (B ++ ['\n']))) := by
  rw [← List.append_assoc]
  exact splitFirst_d3_append _ _ nPre preLast
have sp : split2 d3 (wrap_frontmatter fw N D B)
    = [[], (("\nname: ".toList ++ (N ++ ('\n' :: ("description: ".toList ++ D)))) ++ ['\n']),
        '\n' :: ('\n' :: (B ++ ['\n']))] := by
  rw [wrapeq]
  unfold split2
  rw [splitFirst_self_append _ _ (by decide)]
  simp only [s2]
have hsw : startswith d3 (wrap_frontmatter fw N D B) = true := by
  rw [wrapeq]
  exact startswith_self_append d3 _
have hmeta : buildMeta
    ((("\nname: ".toList ++ (N ++ ('\n' :: ("description: ".toList ++ D)))) ++ ['\n']))
    = [( "name".toList, N), ( "description".toList, D)] := by
  have hlitn : ∀ x ∈ ("name: ".toList), isLineBreakChar x = false := by decide
  have hlitd : ∀ x ∈ ("description: ".toList), isLineBreakChar x = false := by decide
  by_cases hD5 : D = []
  · subst hD5
    rw [List.append_nil]
    unfold buildMeta
    rw [pyStrip_preBlock_emptyD N]
    rw [show ("name: ".toList ++ (N ++ ('\n' :: ("description:".toList))))
      = ("name: ".toList ++ N) ++ ('\n' :: ("description:".toList)) from by
        rw [List.append_assoc]]
    rw [pySplitlines_append_line _ _ (by
      intro c hc
      rcases List.mem_append.mp hc with hc' | hc'
      · exact hlitn c hc'
      · exact hN1 c hc')]
    rw [pySplitlines_singleton ("description:".toList) (by decide) (by decide)]
    rw [List.foldl_cons, List.foldl_cons, List.foldl_nil]
    rw [show splitFirst ([':']) ("name: ".toList ++ N) = some ("name".toList, ' ' :: N)
      from rfl]
    rw [show splitFirst ([':']) ("description:".toList)
      = some ("description".toList, ([] : List Char)) from rfl]
    simp only
    rw [show pyStrip ("name".toList) = "name".toList from by decide]
    rw [show pyStrip ("description".toList) = "description".toList from by decide]
    rw [pyStrip_space_value N hN3 hN4]
    rw [show pyStrip ([] : List Char) = [] from rfl]
    rw [show insertA ("name".toList) N [] = [( "name".toList, N)] from rfl]
    unfold insertA
    rw [if_neg (show ¬("name".toList : List Char) = "description".toList from by decide)]
    rfl
  · unfold buildMeta
    rw [pyStrip_preBlock N D hD4 hD5]
    rw [show ("name: ".toList ++ (N ++ ('\n' :: ("description: ".toList ++ D))))
      = ("name: ".toList ++ N) ++ ('\n' :: ("description: ".toList ++ D)) from by
        rw [List.append_assoc]]
    rw [pySplitlines_append_line _ _ (by
      intro c hc
      rcases List.mem_append.mp hc with hc' | hc'
      · exact hlitn c hc'
      · exact hN1 c hc')]
    rw [pySplitlines_singleton _ (by
      intro c hc
      rcases List.mem_append.mp hc with hc' | hc'
      · exact hlitd c hc'
      · exact hD1 c hc') (by simp [List.append_eq_nil])]
    rw [List.foldl_cons, List.foldl_cons, List.foldl_nil]
    rw [show splitFirst ([':']) ("name: ".toList ++ N) = some ("name".toList, ' ' :: N)
      from rfl]
    rw [show splitFirst ([':']) ("description: ".toList ++ D)
      = some ("description".toList, ' ' :: D) from rfl]
    simp only
    rw [show pyStrip ("name".toList) = "name".toList from by decide]
    rw [show pyStrip ("description".toList) = "description".toList from by decide]
    rw [pyStrip_space_value N hN3 hN4, pyStrip_space_value D hD3 hD4]
    rw [show insertA ("name".toList) N [] = [( "name".toList, N)] from rfl]
    unfold insertA
    rw [if_neg (show ¬("name".toList : List Char) = "description".toList from by decide)]
    rfl
have hbody : ('\n' :: ('\n' :: (B ++ ['\n']))).dropWhile (fun c => c == '\n')
    = B ++ ['\n'] := by
  rw [List.dropWhile_cons, if_pos (by decide), List.dropWhile_cons, if_pos (by decide)]
  obtain ⟨b, B', hB⟩ : ∃ b B', B = b :: B' := by
    cases B with
    | nil => exact absurd rfl hB1
    | cons b B' => exact ⟨b, B', rfl⟩
  subst hB
  rw [List.cons_append, List.dropWhile_cons, if_neg (by
    simp only [beq_iff_eq]
    intro h
    rw [h] at hB2
    exact hB2 (by rfl))]
unfold parse_skill_frontmatter
rw [hsw]
simp only [Bool.true_eq_false, if_false]
rw [sp]
simp only
rw [hmeta, hbody]

/-! ### Filesystem map lemmas -/

theorem lookupA_insertA {β : Type} (k : List Char) (v : β) (p : List Char)
    (d : List (List Char × β)) :
    lookupA p (insertA k v d) = if k = p then some v else lookupA p d := by
induction d with
| nil => simp [insertA, lookupA]
| cons e es ih =>
  by_cases h1 : e.1 = k
  · by_cases h2 : k = p <;> simp [insertA, lookupA, h1, h2]
  · by_cases h2 : k = p
    · subst h2
      simp [insertA, lookupA, h1, ih]
    · simp [insertA, lookupA, h1, h2, ih]

theorem insertA_insertA {β : Type} (k : List Char) (v w : β)
    (d : List (List Char × β)) :
    insertA k v (insertA k w d) = insertA k v d := by
induction d with
| nil => simp [insertA]
| cons e es ih =>
  by_cases h : e.1 = k
  · simp [insertA, h]
  · simp [insertA, h, ih]

theorem lookupA_eq_none_of_not_mem {β : Type} (k : List Char)
    (es : List (List Char × β)) (h : ∀ e ∈ es, e.1 ≠ k) : lookupA k es = none := by
induction es with
| nil => rfl
| cons e es ih =>
  unfold lookupA
  rw [if_neg (h e (by simp))]
  exact ih (fun x hx => h x (by simp [hx]))

theorem lookupA_removeUnder (pre p : List Char) (fs : FS) :
    lookupA p (fsRemoveUnder pre fs)
      = if startswith pre p = true then none else lookupA p fs := by
induction fs with
| nil => simp [fsRemoveUnder, lookupA]
| cons e es ih =>
  unfold fsRemoveUnder at ih ⊢
  rw [List.filter_cons]
  by_cases hk : startswith pre e.1 = true
  · by_cases hp : e.1 = p
    · subst hp
      simp [hk, lookupA, ih]
    · simp [hk, lookupA, hp, ih]
  · by_cases hp : e.1 = p
    · subst hp
      simp only [Bool.not_eq_true] at hk
      simp [hk, lookupA]
    · simp only [Bool.not_eq_true] at hk
      simp [hk, lookupA, hp, ih]

theorem subLookup_some_sw (es : FS) (dir p : List Char) (v : List Char)
    (h : subLookup es dir p = some v) : startswith (dir ++ slash) p = true := by
unfold subLookup at h
cases hf : es.reverse.find? (fun e => dir ++ slash ++ e.1 == p) with
| none => rw [hf] at h; simp at h
| some e =>
  rw [hf] at h
  have := List.find?_some hf
  rw [beq_iff_eq] at this
  rw [← this]
  exact startswith_self_append _ _

theorem find?_singleton {α : Type} (p : α → Bool) (a : α) :
    List.find? p [a] = if p a = true then some a else none := by
cases hp : p a <;> simp [List.find?, hp]

theorem lookupA_foldl_insert (entries : FS) (dir p : List Char) (base : FS) :
    lookupA p (entries.foldl (fun acc e => insertA (dir ++ slash ++ e.1) e.2 acc) base)
      = match subLookup entries dir p with
        | some v => some v
        | none => lookupA p base := by
induction entries generalizing base with
| nil => simp [subLookup]
| cons e es ih =>
  rw [List.foldl_cons, ih]
  unfold subLookup
  rw [show (e :: es).reverse = es.reverse ++ [e] from by simp, List.find?_append]
  cases hf : es.reverse.find? (fun x => dir ++ slash ++ x.1 == p) with
  | some v => simp [subLookup, hf, Option.or]
  | none =>
    simp only [subLookup, hf, Option.none_or]
    rw [lookupA_insertA, find?_singleton]
    simp only [beq_iff_eq]
    by_cases hq : dir ++ slash ++ e.1 = p
    · simp [hq]
    · have hq2 : ¬dir ++ (slash ++ e.1) = p := by
        rw [← List.append_assoc]
        exact hq
      simp [hq, hq2]

theorem lookupA_copy_subdir (src : Option FS) (dir p : List Char) (fs : FS) :
    lookupA p (copy_subdir src dir fs)
      = if subdirNonempty src = true ∧ startswith (dir ++ slash) p = true
        then subLookup (src.getD []) dir p
        else lookupA p fs := by
cases src with
| none => simp [copy_subdir, subdirNonempty]
| some es =>
  by_cases he : es.isEmpty
  · simp [copy_subdir, he, subdirNonempty]
  · simp only [copy_subdir]
    rw [if_neg he]
    rw [lookupA_foldl_insert es dir p _]
    cases hsl : subLookup es dir p with
    | some v =>
      rw [if_pos ⟨by simp [subdirNonempty, he], subLookup_some_sw es dir p v hsl⟩]
      simp [hsl]
    | none =>
      rw [lookupA_removeUnder]
      by_cases hsw : startswith (dir ++ slash) p = true
      · simp [hsw, subdirNonempty, he, hsl]
      · simp [hsw, subdirNonempty, he]

theorem subLookup_eq_lookupA (res : FS) (dir fname : List Char)
    (hnd : (res.map (·.1)).Nodup) :
    subLookup res dir (dir ++ slash ++ fname) = lookupA fname res := by
induction res with
| nil => rfl
| cons e es ih =>
  rw [List.map_cons, List.nodup_cons] at hnd
  obtain ⟨hmem, hnd'⟩ := hnd
  have ih' := ih hnd'
  unfold subLookup at ih' ⊢
  rw [show (e :: es).reverse = es.reverse ++ [e] from by simp, List.find?_append]
  cases hf : es.reverse.find? (fun x => dir ++ slash ++ x.1 == dir ++ slash ++ fname) with
  | some v =>
    have hv := List.find?_some hf
    rw [beq_iff_eq] at hv
    have hv1 : v.1 = fname := List.append_cancel_left hv
    have hvmem : v ∈ es := by
      have h2 : v ∈ es.reverse := List.mem_of_find?_eq_some hf
      simpa using h2
    have hef : e.1 ≠ fname := by
      intro hx
      exact hmem (by
        rw [hx, ← hv1]
        exact List.mem_map_of_mem _ hvmem)
    rw [hf] at ih'
    unfold lookupA
    rw [if_neg hef, ← ih']
    simp [Option.or]
  | none =>
    rw [hf] at ih'
    simp only [Option.none_or] at ih' ⊢
    rw [find?_singleton]
    simp only [beq_iff_eq]
    unfold lookupA
    by_cases hq : e.1 = fname
    · rw [if_pos hq, if_pos (by rw [hq])]
      rfl
    · rw [if_neg hq, if_neg (fun hx => hq (List.append_cancel_left hx))]
      rw [← ih']

/-! ### sync_skill lookup characterization -/

theorem sync_skill_lookup (r : Repo) (sname : List Char) (fw : AgentFramework)
    (fs : FS) (fam : List Char) (sd : SkillDir) (raw : List Char)
    (hfam : find_skill_family r sname = some fam)
    (hdir : get_skill_dir r fam sname = some sd)
    (hmd : sd.skillMd = some raw)
    (hfw : fw = AgentFramework.claude ∨ fw = AgentFramework.copilot)
    (p : List Char) :
    lookupA p (sync_skill r sname fw fs) =
      (if subdirNonempty sd.scripts = true
          ∧ startswith (AGENT_SKILL_PATHS fw ++ slash
              ++ ((lookupA ("name".toList) (parse_skill_frontmatter raw).1).getD sname)
              ++ "/scripts".toList ++ slash) p = true
       then subLookup (sd.scripts.getD [])
         (AGENT_SKILL_PATHS fw ++ slash
           ++ ((lookupA ("name".toList) (parse_skill_frontmatter raw).1).getD sname)
           ++ "/scripts".toList) p
       else if subdirNonempty sd.references = true
          ∧ startswith (AGENT_SKILL_PATHS fw ++ slash
              ++ ((lookupA ("name".toList) (parse_skill_frontmatter raw).1).getD sname)
              ++ "/references".toList ++ slash) p = true
       then subLookup (sd.references.getD [])
         (AGENT_SKILL_PATHS fw ++ slash
           ++ ((lookupA ("name".toList) (parse_skill_frontmatter raw).1).getD sname)
           ++ "/references".toList) p
       else if (AGENT_SKILL_PATHS fw ++ slash
           ++ ((lookupA ("name".toList) (parse_skill_frontmatter raw).1).getD sname)
           ++ "/SKILL.md".toList) = p
       then some (wrap_frontmatter fw
         ((lookupA ("name".toList) (parse_skill_frontmatter raw).1).getD sname)
         ((lookupA ("description".toList) (parse_skill_frontmatter raw).1).getD [])
         (parse_skill_frontmatter raw).2)
       else lookupA p fs) := by
rcases hfw with rfl | rfl <;>
· simp only [sync_skill, hfam, hdir, hmd]
  rw [lookupA_copy_subdir, lookupA_copy_subdir, lookupA_insertA]

theorem sw_disjoint_subdirs (dest subA subB rest : List Char)
    (h : startswith (subA ++ slash) (subB ++ (slash ++ rest)) = false) :
    startswith (dest ++ subA ++ slash) (dest ++ subB ++ slash ++ rest) = false := by
simp only [List.append_assoc]
rw [startswith_cancel]
exact h

theorem sw_self_under (dest sub rest : List Char) :
    startswith (dest ++ sub ++ slash) (dest ++ sub ++ slash ++ rest) = true := by
simp only [List.append_assoc]
rw [startswith_cancel, startswith_cancel]
exact startswith_self_append _ _

theorem append_cons_ne (x : List Char) (a b : Char) (s t : List Char) (hab : a ≠ b) :
    ¬(x ++ (a :: s) = x ++ (b :: t)) := by
intro h
have h2 := List.append_cancel_left h
injection h2 with h3
exact hab h3

theorem ne_md_ref (dest rest : List Char) :
    ¬(dest ++ "/SKILL.md".toList = dest ++ "/references".toList ++ slash ++ rest) := by
intro h
simp only [List.append_assoc] at h
have h2 := List.append_cancel_left h
injection h2 with ha hb
injection hb with hc hd
exact absurd hc (by decide)

theorem ne_md_scr (dest rest : List Char) :
    ¬(dest ++ "/SKILL.md".toList = dest ++ "/scripts".toList ++ slash ++ rest) := by
intro h
simp only [List.append_assoc] at h
have h2 := List.append_cancel_left h
injection h2 with ha hb
injection hb with hc hd
exact absurd hc (by decide)

/-! ### Claim theorems -/

/-- C2.  Download output shape: downloading the fixture skill
`deploy-checklist` (frontmatter name `deploy-checklist`, description
`Checklist`, body `Steps...`) to a claude project writes
`.claude/skills/deploy-checklist/SKILL.md` with exactly the claimed bytes,
and to a cursor project writes `.cursor/rules/deploy-checklist.md` with
the same two fields plus `globs: []` and `alwaysApply: false`. -/
theorem c2_download_shape :
    lookupA (".claude/skills/deploy-checklist/SKILL.md".toList)
        (sync_skill c2Repo ("deploy-checklist".toList) AgentFramework.claude [])
      = some ("---\nname: deploy-checklist\ndescription: Checklist\n---\n\nSteps...\n".toList)
    ∧ lookupA (".cursor/rules/deploy-checklist.md".toList)
        (sync_skill c2Repo ("deploy-checklist".toList) AgentFramework.cursor [])
      = some ("---\nname: deploy-checklist\ndescription: Checklist\nglobs: []\nalwaysApply: false\n---\n\nSteps...\n".toList) :=
⟨rfl, rfl⟩

/-- C4.  Cursor upload is verbatim: whatever bytes the project's flat
`<skill-name>.md` file holds (cursor-specific frontmatter included) are
written unchanged to the canonical `SKILL.md`; no stripping or re-parsing
is applied. -/
theorem c4_upload_verbatim (skill_name family content : List Char)
    (projFs canonFs : FS)
    (h : lookupA (AGENT_SKILL_PATHS AgentFramework.cursor ++ slash ++ skill_name
        ++ ".md".toList) projFs = some content) :
    lookupA (family ++ slash ++ skill_name ++ "/SKILL.md".toList)
      (upload_skill_cursor skill_name family projFs canonFs) = some content := by
unfold upload_skill_cursor
simp only [h]
rw [lookupA_insertA, if_pos rfl]

/-- Witness for C4 at a concrete cursor file whose frontmatter carries
`globs` and `alwaysApply`. -/
theorem c4_upload_verbatim_case :
    lookupA ( "fam/sk/SKILL.md".toList)
      (upload_skill_cursor ( "sk".toList) ( "fam".toList)
        [( ".cursor/rules/sk.md".toList,
           "---\nname: sk\ndescription: d\nglobs: []\nalwaysApply: false\n---\n\nBody\n".toList)]
        [])
      = some ("---\nname: sk\ndescription: d\nglobs: []\nalwaysApply: false\n---\n\nBody\n".toList) :=
c4_upload_verbatim ( "sk".toList) ( "fam".toList) _ _ [] rfl

theorem sync_skills_foldl_aux (r : Repo) (fw : AgentFramework)
    (names : List (List Char)) :
    ∀ (c : Nat) (fs : FS),
      (names.foldl (fun acc n => (acc.1 + 1, sync_skill r n fw acc.2)) (c, fs))
        = (c + names.length, names.foldl (fun a n => sync_skill r n fw a) fs) := by
induction names with
| nil =>
  intro c fs
  simp
| cons n ns ih =>
  intro c fs
  rw [List.foldl_cons, List.foldl_cons, ih]
  simp only [Prod.mk.injEq, List.length_cons]
  exact ⟨by omega, trivial⟩

/-- C5.  Batch count and independence: `sync_skills` returns the length of
the input list (a count of attempts, whatever each attempt did), its final
filesystem is the in-order fold of the independent per-skill syncs, and a
skipped head (unknown skill) leaves the processing of the remaining names
unchanged. -/
theorem c5_batch_count :
    (∀ (r : Repo) (names : List (List Char)) (fw : AgentFramework) (fs : FS),
      (sync_skills r names fw fs).1 = names.length
      ∧ (sync_skills r names fw fs).2
          = names.foldl (fun a n => sync_skill r n fw a) fs)
    ∧ (∀ (r : Repo) (n : List Char) (rest : List (List Char))
        (fw : AgentFramework) (fs : FS),
      find_skill_family r n = none →
      (sync_skills r (n :: rest) fw fs).2 = (sync_skills r rest fw fs).2) := by
constructor
· intro r names fw fs
  have h := sync_skills_foldl_aux r fw names 0 fs
  unfold sync_skills
  rw [h]
  exact ⟨by simp, rfl⟩
· intro r n rest fw fs hn
  unfold sync_skills
  rw [List.foldl_cons, sync_skills_foldl_aux, sync_skills_foldl_aux]
  simp only
  rw [show sync_skill r n fw fs = fs from by simp [sync_skill, hn]]

/-- Witness for C5: one unknown name in an empty repository is counted as
an attempt, and skipping it does not disturb the (empty) remainder. -/
theorem c5_batch_count_case :
    (sync_skills ([] : Repo) [ "a".toList ] AgentFramework.claude []).1 = 1
    ∧ (sync_skills ([] : Repo) ( "a".toList :: []) AgentFramework.claude []).2
        = (sync_skills ([] : Repo) [] AgentFramework.claude []).2 := by
constructor
· exact ((c5_batch_count.1 ([] : Repo) [ "a".toList ] AgentFramework.claude []).1).trans rfl
· exact c5_batch_count.2 ([] : Repo) ( "a".toList) [] AgentFramework.claude [] rfl

/-- C6.  Frontmatter parse fallback: text not beginning with `---` is
returned unchanged with empty metadata, and so is text that begins with
`---` but contains no second `---` (no closing delimiter). -/
theorem c6_parse_fallback :
    (∀ t : List Char, startswith d3 t = false →
      parse_skill_frontmatter t = ([], t))
    ∧ (∀ rest : List Char, splitFirst d3 rest = none →
      parse_skill_frontmatter (d3 ++ rest) = ([], d3 ++ rest)) := by
constructor
· intro t h
  unfold parse_skill_frontmatter
  rw [h, if_pos rfl]
· intro rest h
  unfold parse_skill_frontmatter
  rw [startswith_self_append d3 rest, if_neg (by simp)]
  unfold split2
  rw [splitFirst_self_append _ _ (by decide)]
  simp only [h]

/-- Witness for C6: a delimiter-free text and a text with an unclosed
delimiter both fall back to empty metadata and the unchanged input. -/
theorem c6_parse_fallback_case :
    parse_skill_frontmatter ( "hello".toList) = ([], "hello".toList)
    ∧ parse_skill_frontmatter ( "---abc".toList) = ([], "---abc".toList) :=
⟨c6_parse_fallback.1 ( "hello".toList) (by decide),
 c6_parse_fallback.2 ( "abc".toList) (by decide)⟩

/-- C7.  get_agent totality: a missing agent field gives `none`, a field
holding exactly a known framework value gives that framework, and any
other value gives `none`; no case fails. -/
theorem c7_get_agent_total (cfg : Config) :
    (cfg.agent = none → get_agent cfg = none)
    ∧ (∀ fw : AgentFramework, cfg.agent = some (frameworkValue fw) →
        get_agent cfg = some fw)
    ∧ (∀ s, cfg.agent = some s → (∀ fw : AgentFramework, s ≠ frameworkValue fw) →
        get_agent cfg = none) := by
refine ⟨?_, ?_, ?_⟩
· intro h
  unfold get_agent
  rw [h]
· intro fw h
  unfold get_agent
  rw [h]
  cases fw <;> rfl
· intro s h hne
  unfold get_agent
  rw [h]
  by_cases hs : s.isEmpty
  · simp [hs]
  · simp only [hs, Bool.false_eq_true, if_false]
    unfold frameworkOfValue
    rw [if_neg (show ¬s = "claude".toList from hne AgentFramework.claude),
      if_neg (show ¬s = "cursor".toList from hne AgentFramework.cursor),
      if_neg (show ¬s = "copilot".toList from hne AgentFramework.copilot)]

/-- Witness for C7 at the three interesting concrete configurations. -/
theorem c7_get_agent_total_case :
    get_agent { agent := some ( "claude".toList), skills := [] }
        = some AgentFramework.claude
    ∧ get_agent { agent := none, skills := [] } = none
    ∧ get_agent { agent := some ( "emacs".toList), skills := [] } = none := by
refine ⟨?_, ?_, ?_⟩
· exact (c7_get_agent_total _).2.1 AgentFramework.claude rfl
· exact (c7_get_agent_total _).1 rfl
· exact (c7_get_agent_total _).2.2 ( "emacs".toList) rfl
    (by intro fw; cases fw <;> decide)

/-- C8.  New-skill check on the Scenario C fixture: the new set is exactly
`{c}`, declining the review returns no updates, and feeding that result to
the download command's update step leaves the configuration unchanged with
no save performed. -/
theorem c8_new_skill_check :
    new_skills c8Repo c8Cfg = [ "c".toList ]
    ∧ check_new_skills c8Repo c8Cfg ( "n".toList) (fun _ => "y".toList) = none
    ∧ download_update_config c8Cfg
        (check_new_skills c8Repo c8Cfg ( "n".toList) (fun _ => "y".toList))
      = (c8Cfg, false) :=
⟨rfl, rfl, rfl⟩

/-- Counterexample for C1 as stated: already at the simplest metadata
(values without colons or newlines) and body `b`, the round trip returns
the body with a trailing newline appended (`b\n`), not the original
body. -/
theorem c1_roundtrip_cex :
    parse_skill_frontmatter
        (wrap_frontmatter AgentFramework.claude ( "n".toList) ( "d".toList) ( "b".toList))
      ≠ ([( "name".toList, "n".toList), ( "description".toList, "d".toList)],
         "b".toList) := by
decide

/-- C1 (amended).  Frontmatter round trip for the claude/copilot wrapper:
when the two metadata values (either may be empty) contain no colons, no
line-break characters, no leading or trailing whitespace, and no `---`
substring, and the body is non-empty and does not begin with a newline,
parsing the wrapped text returns exactly the metadata and the body with
one trailing newline appended (the newline the wrapper adds and the
parser's `lstrip("\n")` does not remove). -/
theorem c1_roundtrip (fw : AgentFramework) (N D B : List Char)
    (hfw : fw ≠ AgentFramework.cursor)
    (hN1 : ∀ c ∈ N, isLineBreakChar c = false)
    (hN2 : ∀ c ∈ N, c ≠ ':')
    (hN3 : N.dropWhile isPySpace = N)
    (hN4 : N.reverse.dropWhile isPySpace = N.reverse)
    (hN6 : splitFirst d3 N = none)
    (hD1 : ∀ c ∈ D, isLineBreakChar c = false)
    (hD2 : ∀ c ∈ D, c ≠ ':')
    (hD3 : D.dropWhile isPySpace = D)
    (hD4 : D.reverse.dropWhile isPySpace = D.reverse)
    (hD6 : splitFirst d3 D = none)
    (hB1 : B ≠ []) (hB2 : B.head? ≠ some '\n') :
    parse_skill_frontmatter (wrap_frontmatter fw N D B)
      = ([( "name".toList, N), ( "description".toList, D)], B ++ "\n".toList) :=
parse_wrap_noncursor fw N D B hfw hN1 hN3 hN4 hN6 hD1 hD3 hD4 hD6 hB1 hB2

/-- Witness for the amended C1 at the fixture skill's metadata and body,
and at the same skill with an empty description (the default the code
itself supplies). -/
theorem c1_roundtrip_case :
    parse_skill_frontmatter (wrap_frontmatter AgentFramework.claude
        ( "deploy-checklist".toList) ( "Checklist".toList) ( "Steps...".toList))
      = ([( "name".toList, "deploy-checklist".toList),
          ( "description".toList, "Checklist".toList)],
         "Steps...".toList ++ "\n".toList)
    ∧ parse_skill_frontmatter (wrap_frontmatter AgentFramework.claude
        ( "deploy-checklist".toList) ([] : List Char) ( "Steps...".toList))
      = ([( "name".toList, "deploy-checklist".toList),
          ( "description".toList, ([] : List Char))],
         "Steps...".toList ++ "\n".toList) :=
⟨c1_roundtrip AgentFramework.claude ( "deploy-checklist".toList)
    ( "Checklist".toList) ( "Steps...".toList)
    (by decide) (by decide) (by decide) (by decide) (by decide) (by decide)
    (by decide) (by decide) (by decide) (by decide) (by decide) (by decide)
    (by decide),
 c1_roundtrip AgentFramework.claude ( "deploy-checklist".toList)
    ([] : List Char) ( "Steps...".toList)
    (by decide) (by decide) (by decide) (by decide) (by decide) (by decide)
    (by decide) (by decide) (by decide) (by decide) (by decide) (by decide)
    (by decide)⟩

/-- C9.  Download idempotence: running the download of a skill a second
time against the unchanged canonical repository produces a destination
filesystem that maps every path to exactly the same bytes as after the
first run. -/
theorem c9_download_idem (r : Repo) (sname : List Char) (fw : AgentFramework)
    (fs : FS) (p : List Char) :
    lookupA p (sync_skill r sname fw (sync_skill r sname fw fs))
      = lookupA p (sync_skill r sname fw fs) := by
cases hfam : find_skill_family r sname with
| none => simp [sync_skill, hfam]
| some fam =>
cases hdir : get_skill_dir r fam sname with
| none => simp [sync_skill, hfam, hdir]
| some sd =>
cases hmd : sd.skillMd with
| none => simp [sync_skill, hfam, hdir, hmd]
| some raw =>
cases fw with
| cursor =>
  simp only [sync_skill, hfam, hdir, hmd]
  rw [insertA_insertA]
| claude =>
  rw [sync_skill_lookup r sname _ _ fam sd raw hfam hdir hmd (Or.inl rfl) p,
    sync_skill_lookup r sname _ _ fam sd raw hfam hdir hmd (Or.inl rfl) p]
  split_ifs <;> rfl
| copilot =>
  rw [sync_skill_lookup r sname _ _ fam sd raw hfam hdir hmd (Or.inr rfl) p,
    sync_skill_lookup r sname _ _ fam sd raw hfam hdir hmd (Or.inr rfl) p]
  split_ifs <;> rfl

/-- C3.  Destructive replace of supporting subdirectories: after a claude
or copilot download of a found skill whose canonical `references/`
(respectively `scripts/`) exists, is non-empty, and has distinct file
names, the destination `references/` (respectively `scripts/`)
subdirectory maps each file name to exactly the upstream content —
previously existing destination files under that subdirectory are gone. -/
theorem c3_subdir_replace (r : Repo) (sname fam raw : List Char)
    (sd : SkillDir) (fw : AgentFramework) (fs : FS)
    (hfw : fw = AgentFramework.claude ∨ fw = AgentFramework.copilot)
    (hfam : find_skill_family r sname = some fam)
    (hdir : get_skill_dir r fam sname = some sd)
    (hmd : sd.skillMd = some raw) :
    (∀ res, sd.references = some res → res ≠ [] → (res.map (·.1)).Nodup →
      ∀ fname, lookupA (AGENT_SKILL_PATHS fw ++ slash
          ++ ((lookupA ("name".toList) (parse_skill_frontmatter raw).1).getD sname)
          ++ "/references".toList ++ slash ++ fname)
        (sync_skill r sname fw fs) = lookupA fname res)
    ∧ (∀ scr, sd.scripts = some scr → scr ≠ [] → (scr.map (·.1)).Nodup →
      ∀ fname, lookupA (AGENT_SKILL_PATHS fw ++ slash
          ++ ((lookupA ("name".toList) (parse_skill_frontmatter raw).1).getD sname)
          ++ "/scripts".toList ++ slash ++ fname)
        (sync_skill r sname fw fs) = lookupA fname scr) := by
constructor
· intro res hres hne hnd fname
  rw [sync_skill_lookup r sname fw fs fam sd raw hfam hdir hmd hfw]
  have hF1 : startswith (AGENT_SKILL_PATHS fw ++ slash
      ++ ((lookupA ("name".toList) (parse_skill_frontmatter raw).1).getD sname)
      ++ "/scripts".toList ++ slash)
      (AGENT_SKILL_PATHS fw ++ slash
      ++ ((lookupA ("name".toList) (parse_skill_frontmatter raw).1).getD sname)
      ++ "/references".toList ++ slash ++ fname) = false :=
    sw_disjoint_subdirs _ _ _ _ rfl
  rw [if_neg (by
    intro hcon
    rw [hF1] at hcon
    exact absurd hcon.2 (by decide))]
  rw [if_pos ⟨by
      rw [hres]
      cases res with
      | nil => exact absurd rfl hne
      | cons e es => rfl,
    sw_self_under _ _ fname⟩]
  rw [hres]
  exact subLookup_eq_lookupA res _ fname hnd
· intro scr hscr hne hnd fname
  rw [sync_skill_lookup r sname fw fs fam sd raw hfam hdir hmd hfw]
  rw [if_pos ⟨by
      rw [hscr]
      cases scr with
      | nil => exact absurd rfl hne
      | cons e es => rfl,
    sw_self_under _ _ fname⟩]
  rw [hscr]
  exact subLookup_eq_lookupA scr _ fname hnd

/-- Witness for C3: a concrete claude download whose canonical skill has
one `references/` file and one `scripts/` file replaces a stale
destination file. -/
theorem c3_subdir_replace_case :
    lookupA (".claude/skills/s/references/r.txt".toList)
      (sync_skill
        [( "f".toList, [( "s".toList,
          ⟨some ( "md".toList),
           some [( "r.txt".toList, "R".toList)],
           some [( "x.py".toList, "X".toList)]⟩)])]
        ( "s".toList) AgentFramework.claude
        [( ".claude/skills/s/references/stale.txt".toList, "old".toList)])
      = some ( "R".toList)
    ∧ lookupA (".claude/skills/s/references/stale.txt".toList)
      (sync_skill
        [( "f".toList, [( "s".toList,
          ⟨some ( "md".toList),
           some [( "r.txt".toList, "R".toList)],
           some [( "x.py".toList, "X".toList)]⟩)])]
        ( "s".toList) AgentFramework.claude
        [( ".claude/skills/s/references/stale.txt".toList, "old".toList)])
      = none := by
have h := (c3_subdir_replace
    [( "f".toList, [( "s".toList,
      (⟨some ( "md".toList),
        some [( "r.txt".toList, "R".toList)],
        some [( "x.py".toList, "X".toList)]⟩ : SkillDir))])]
    ( "s".toList) ( "f".toList) ( "md".toList)
    (⟨some ( "md".toList),
      some [( "r.txt".toList, "R".toList)],
      some [( "x.py".toList, "X".toList)]⟩ : SkillDir)
    AgentFramework.claude
    [( ".claude/skills/s/references/stale.txt".toList, "old".toList)]
    (Or.inl rfl) rfl rfl rfl).1
    [( "r.txt".toList, "R".toList)] rfl (by decide) (by decide)
constructor
· exact (h ( "r.txt".toList)).trans rfl
· exact (h ( "stale.txt".toList)).trans rfl

/-- C10.  Stale subdirectories survive: on a claude or copilot download of
a found skill, when the canonical `references/` (respectively `scripts/`)
subdirectory is absent or empty, every destination path under that
subdirectory keeps exactly the content it had before the download —
nothing there is deleted or emptied. -/
theorem c10_stale_subdir_preserved (r : Repo) (sname fam raw : List Char)
    (sd : SkillDir) (fw : AgentFramework) (fs : FS)
    (hfw : fw = AgentFramework.claude ∨ fw = AgentFramework.copilot)
    (hfam : find_skill_family r sname = some fam)
    (hdir : get_skill_dir r fam sname = some sd)
    (hmd : sd.skillMd = some raw) :
    (sd.references = none ∨ sd.references = some [] →
      ∀ fname, lookupA (AGENT_SKILL_PATHS fw ++ slash
          ++ ((lookupA ("name".toList) (parse_skill_frontmatter raw).1).getD sname)
          ++ "/references".toList ++ slash ++ fname)
        (sync_skill r sname fw fs)
        = lookupA (AGENT_SKILL_PATHS fw ++ slash
          ++ ((lookupA ("name".toList) (parse_skill_frontmatter raw).1).getD sname)
          ++ "/references".toList ++ slash ++ fname) fs)
    ∧ (sd.scripts = none ∨ sd.scripts = some [] →
      ∀ fname, lookupA (AGENT_SKILL_PATHS fw ++ slash
          ++ ((lookupA ("name".toList) (parse_skill_frontmatter raw).1).getD sname)
          ++ "/scripts".toList ++ slash ++ fname)
        (sync_skill r sname fw fs)
        = lookupA (AGENT_SKILL_PATHS fw ++ slash
          ++ ((lookupA ("name".toList) (parse_skill_frontmatter raw).1).getD sname)
          ++ "/scripts".toList ++ slash ++ fname) fs) := by
constructor
· intro href fname
  rw [sync_skill_lookup r sname fw fs fam sd raw hfam hdir hmd hfw]
  have hF1 : startswith (AGENT_SKILL_PATHS fw ++ slash
      ++ ((lookupA ("name".toList) (parse_skill_frontmatter raw).1).getD sname)
      ++ "/scripts".toList ++ slash)
      (AGENT_SKILL_PATHS fw ++ slash
      ++ ((lookupA ("name".toList) (parse_skill_frontmatter raw).1).getD sname)
      ++ "/references".toList ++ slash ++ fname) = false :=
    sw_disjoint_subdirs _ _ _ _ rfl
  have hRF : subdirNonempty sd.references = false := by
    rcases href with h | h <;> rw [h] <;> rfl
  rw [if_neg (by
    intro hcon
    rw [hF1] at hcon
    exact absurd hcon.2 (by decide))]
  rw [if_neg (by
    intro hcon
    rw [hRF] at hcon
    exact absurd hcon.1 (by decide))]
  rw [if_neg (ne_md_ref _ fname)]
· intro hscr fname
  rw [sync_skill_lookup r sname fw fs fam sd raw hfam hdir hmd hfw]
  have hF1 : startswith (AGENT_SKILL_PATHS fw ++ slash
      ++ ((lookupA ("name".toList) (parse_skill_frontmatter raw).1).getD sname)
      ++ "/references".toList ++ slash)
      (AGENT_SKILL_PATHS fw ++ slash
      ++ ((lookupA ("name".toList) (parse_skill_frontmatter raw).1).getD sname)
      ++ "/scripts".toList ++ slash ++ fname) = false :=
    sw_disjoint_subdirs _ _ _ _ rfl
  have hSF : subdirNonempty sd.scripts = false := by
    rcases hscr with h | h <;> rw [h] <;> rfl
  rw [if_neg (by
    intro hcon
    rw [hSF] at hcon
    exact absurd hcon.1 (by decide))]
  rw [if_neg (by
    intro hcon
    rw [hF1] at hcon
    exact absurd hcon.2 (by decide))]
  rw [if_neg (ne_md_scr _ fname)]

/-- Witness for C10: with canonical `references/` absent, a stale
destination file under `references/` is untouched by the download. -/
theorem c10_stale_subdir_preserved_case :
    lookupA (".claude/skills/s/references/stale.txt".toList)
      (sync_skill
        [( "f".toList, [( "s".toList,
          (⟨some ( "md".toList), none, none⟩ : SkillDir))])]
        ( "s".toList) AgentFramework.claude
        [( ".claude/skills/s/references/stale.txt".toList, "old".toList)])
      = some ( "old".toList) := by
have h := (c10_stale_subdir_preserved
    [( "f".toList, [( "s".toList, (⟨some ( "md".toList), none, none⟩ : SkillDir))])]
    ( "s".toList) ( "f".toList) ( "md".toList)
    (⟨some ( "md".toList), none, none⟩ : SkillDir)
    AgentFramework.claude
    [( ".claude/skills/s/references/stale.txt".toList, "old".toList)]
    (Or.inl rfl) rfl rfl rfl).1 (Or.inl rfl) ( "stale.txt".toList)
exact h.trans rfl
